import Mathlib

/-!
Verification of the DADBS-TESTNET stake-weighted transaction validation
subsystem: a shallow embedding of `src/utils/address.rs` (address
derivation and parsing), `src/node/consensus.rs` (the consensus manager)
and `src/program/stake.rs` (the stake ledger), together with theorems
settling the specification claims about them.

Strings are modelled as `List Char` (Lean `Char` is a Unicode scalar
value, matching Rust `char`); unsigned machine integers are modelled as
`Nat` with explicit reduction modulo `2 ^ w` wherever the Rust code
wraps; fallible operations return `Except`.
-/

namespace DADBS

/-- `2 ^ 64`, the modulus of unsigned 64-bit (`u64`) arithmetic. -/
def U64 : Nat := 2 ^ 64

/-- `2 ^ 128`, the modulus of the Rust `u128` hash accumulator. -/
def U128 : Nat := 2 ^ 128

/-- Rust `char::is_ascii_alphanumeric`: `0-9`, `A-Z` or `a-z`.
(Lean core `Char.isDigit` / `isUpper` / `isLower` test exactly these
ASCII ranges.) -/
def isAsciiAlnum (c : Char) : Bool :=
  c.isDigit || c.isUpper || c.isLower

/-- Rust `char::is_ascii_hexdigit`: `0-9`, `A-F` or `a-f`. -/
def isAsciiHexdigit (c : Char) : Bool :=
  c.isDigit || decide (65 ≤ c.toNat ∧ c.toNat ≤ 70) ||
    decide (97 ≤ c.toNat ∧ c.toNat ≤ 102)

/-- A lowercase hexadecimal digit: `0-9` or `a-f`. -/
def isLowerHexdigit (c : Char) : Bool :=
  c.isDigit || decide (97 ≤ c.toNat ∧ c.toNat ≤ 102)

/-! ## AddressTranslator (`src/utils/address.rs`) -/

/-- One step of the DJB2 loop body of `DADBSAddress::from_solana`:
`hash = ((hash << 5).wrapping_add(hash)).wrapping_add(c as u128)`,
with every operation wrapping in `u128`. -/
def djb2Step (h : Nat) (c : Char) : Nat :=
  (((h <<< 5) % U128 + h) % U128 + c.toNat) % U128

/-- The DJB2 rolling hash over an input string: accumulator starts at
5381 and is folded by `djb2Step` over the characters, everything in
wrapping `u128` arithmetic, as in the source loop. -/
def djb2 (input : List Char) : Nat := input.foldl djb2Step 5381

/-- The lowercase hex digit character for `n < 16`
(`48 = '0'.toNat`, `87 + 10 = 'a'.toNat`). -/
def hexDigit (n : Nat) : Char :=
  if n < 10 then Char.ofNat (48 + n) else Char.ofNat (87 + n)

/-- Rust `format!("{:016x}", v)` for `v < 2 ^ 64`: the 16 lowercase,
zero-padded hexadecimal digits of `v`, most significant first. -/
def toHexPad16 (v : Nat) : List Char :=
  (List.range 16).reverse.map (fun i => hexDigit (v / 16 ^ i % 16))

/-- One hash round of `from_solana`: DJB2 over the round's input,
reduced `mod 2 ^ 64` (`hash % (1u128 << 64)`), formatted as 16 hex
digits. -/
def roundHash (input : List Char) : List Char :=
  toHexPad16 (djb2 input % U64)

/-- The source loop `for i in 0..4 { let input = format!("{}{}",
prev_hash, i); ...; hashes.push(hash_hex); prev_hash = hash_hex; }`:
`runRounds prev i fuel` produces the list of round outputs starting
from round index `i` with `fuel` rounds remaining. -/
def runRounds : List Char → Nat → Nat → List (List Char)
  | _, _, 0 => []
  | prev, i, fuel + 1 =>
    let h := roundHash (prev ++ Nat.toDigits 10 i)
    h :: runRounds h (i + 1) fuel

/-- The namespace tag `DADBS_PREFIX = "dadbs"` of the source. -/
def dadbsTag : List Char := ['d', 'a', 'd', 'b', 's']

/-- `SOLANA_ADDRESS_LENGTH` of the source. -/
def SOLANA_ADDRESS_LENGTH : Nat := 44

/-- The two error constructors of `AddressError` (their payload message
strings carry no information used by any claim and are omitted). -/
inductive AddressError
  | InvalidSolanaAddress
  | InvalidDADBSAddress
  deriving DecidableEq

/-- `DADBSAddress::from_solana`: validates that the input is exactly 44
ASCII-alphanumeric characters, then runs four DJB2 rounds (round `i`
hashing `prev_hash ++ decimal(i)`, where `prev_hash` starts as the
input address) and returns the tag followed by the concatenated round
outputs. -/
def from_solana (solana_address : List Char) : Except AddressError (List Char) :=
  if solana_address.length != SOLANA_ADDRESS_LENGTH
      || ! solana_address.all isAsciiAlnum then
    .error .InvalidSolanaAddress
  else
    .ok (dadbsTag ++ (runRounds solana_address 0 4).flatten)

/-- `DADBSAddress::from_string`: requires the `dadbs` tag followed by
exactly 64 ASCII hex digits (`char::is_ascii_hexdigit`, which accepts
both cases); returns the input string verbatim. -/
def from_string (s : List Char) : Except AddressError (List Char) :=
  if ! dadbsTag.isPrefixOf s then
    .error .InvalidDADBSAddress
  else
    let addr_part := s.drop dadbsTag.length
    if addr_part.length != 64 || ! addr_part.all isAsciiHexdigit then
      .error .InvalidDADBSAddress
    else
      .ok s

/-! Mathematical (specification-level) form of the round function: the
accumulator recurrence `acc = acc * 33 + code_point(c)` reduced
`mod 2 ^ 64`, as the spec text states it. -/

/-- The DJB2 hash as the claims state it: `acc := acc * 33 +
code_point(c)` per character, reduced `mod 2 ^ 64`. -/
def djb2Spec (input : List Char) : Nat :=
  input.foldl (fun h c => (h * 33 + c.toNat) % U64) 5381

/-- A round in specification form: `djb2Spec` of the input, formatted
as 16 lowercase zero-padded hex digits. -/
def roundSpec (input : List Char) : List Char := toHexPad16 (djb2Spec input)

/-- The derivation algorithm exactly as claim C1 words it: round 0
hashes the external address string itself, and round `i+1` hashes the
previous round's output concatenated with `decimal(i+1)`; the result is
the tag followed by the four round outputs. -/
def claimDerive (addr : List Char) : List Char :=
  let r0 := roundSpec addr
  let r1 := roundSpec (r0 ++ ['1'])
  let r2 := roundSpec (r1 ++ ['2'])
  let r3 := roundSpec (r2 ++ ['3'])
  dadbsTag ++ (r0 ++ (r1 ++ (r2 ++ r3)))

/-- The derivation algorithm as the code actually implements it: round
`i` (for `i = 0, 1, 2, 3`) hashes `prev ++ decimal(i)` where `prev`
starts as the external address string — so round 0 already appends the
digit `0` to the address before hashing. -/
def codeDerive (addr : List Char) : List Char :=
  let r0 := roundSpec (addr ++ ['0'])
  let r1 := roundSpec (r0 ++ ['1'])
  let r2 := roundSpec (r1 ++ ['2'])
  let r3 := roundSpec (r2 ++ ['3'])
  dadbsTag ++ (r0 ++ (r1 ++ (r2 ++ r3)))

/-- The 44-character alphanumeric external address used by the source's
own tests. -/
def testAddr : List Char := "DYw8jCTfwHNRJhhmFcbXvVDTqWMEVFBX6ZKUmG5CNSKK".toList

/-- An internal-address string whose 64 characters after the tag are all
uppercase `A` (a hex digit for `char::is_ascii_hexdigit`, but not a
lowercase one). -/
def upperAddr : List Char := dadbsTag ++ List.replicate 64 'A'

/-- An internal-address string whose 64 characters after the tag are all
`0`. -/
def lowAddr : List Char := dadbsTag ++ List.replicate 64 '0'

/-! ## ConsensusManager (`src/node/consensus.rs`) -/

/-- A transaction as the consensus manager observes it:
`sigValid` is the result of `transaction.verify_signature()` and `age`
is `now - transaction.timestamp` at validation time (the
`Instant`-based clock reading is modelled as this given age). -/
structure Transaction where
  sigValid : Bool
  age : Nat

/-- A validator, reduced to its `verify_transaction` confirmation
capability (the yes/no answer it gives for a transaction). -/
structure Validator where
  confirm : Transaction → Bool

/-- `ConsensusManager` state: the validator set and the
`consensus_timeout` duration (the bookkeeping fields `last_block_hash`
and `last_consensus` are read by no claim and are omitted). -/
structure ConsensusManager where
  validators : List Validator
  consensus_timeout : Nat

/-- `ConsensusManager::verify_signature`. -/
def verify_signature (_m : ConsensusManager) (tx : Transaction) : Bool :=
  tx.sigValid

/-- `ConsensusManager::verify_timestamp`:
`transaction_age < self.consensus_timeout`. -/
def verify_timestamp (m : ConsensusManager) (tx : Transaction) : Bool :=
  decide (tx.age < m.consensus_timeout)

/-- `ConsensusManager::get_validator_confirmations`: the sequential
loop that counts the validators confirming the transaction. -/
def get_validator_confirmations (m : ConsensusManager) (tx : Transaction) : Nat :=
  m.validators.foldl
    (fun confirmations v =>
      if v.confirm tx then confirmations + 1 else confirmations) 0

/-- `ConsensusManager::validate_transaction`: signature check, then
timestamp check, then the quorum test
`confirmations > (self.validators.len() * 2 / 3)`, returning `false`
at the first failing check. -/
def validate_transaction (m : ConsensusManager) (tx : Transaction) : Bool :=
  if ! verify_signature m tx then false
  else if ! verify_timestamp m tx then false
  else decide (get_validator_confirmations m tx > m.validators.length * 2 / 3)

/-! ## StakeLedger (`src/program/stake.rs`) -/

/-- Solana public keys, modelled as opaque identifiers. -/
abbrev Pubkey := Nat

/-- The persisted stake record (`struct StakeAccount`). -/
structure StakeAccount where
  owner : Pubkey
  amount : Nat
  locked_until : Int
  is_active : Bool
  deriving DecidableEq

/-- The `ProgramError` values the stake program produces.
`IncorrectProgramId` is the spec's `OwnershipError`,
`InvalidAccountData` its `PermissionDenied`, `InvalidArgument` its
`StillLocked` (in `Withdraw`) and `ArgumentError` (in `CreateStake`),
and `InsufficientFunds` its `InsufficientFunds`. `BorshIoError` is the
deserialization failure of `try_from_slice`, and
`SystemProgramFailure` stands for the external host rejecting the
`create_account` transfer. -/
inductive ProgramError
  | IncorrectProgramId
  | InvalidAccountData
  | InvalidArgument
  | InsufficientFunds
  | BorshIoError
  | SystemProgramFailure
  deriving DecidableEq

/-- An `AccountInfo` as the stake program uses it: its address, the
program that owns its storage, its lamport balance, and its data
buffer, modelled as the decoded stake record it holds (`none` when the
buffer does not deserialize to a `StakeAccount`). -/
structure AccountInfo where
  key : Pubkey
  owner : Pubkey
  lamports : Nat
  data : Option StakeAccount
  deriving DecidableEq

/-- Wrapping `u64` addition. -/
def wadd64 (a b : Nat) : Nat := (a + b) % U64

/-- Wrapping `u64` subtraction. -/
def wsub64 (a b : Nat) : Nat := (a % U64 + (U64 - b % U64)) % U64

/-- Borsh-serialized size of a `StakeAccount` record:
32 (`Pubkey`) + 8 (`u64`) + 8 (`i64`) + 1 (`bool`). -/
def stakeAccountSpace : Nat := 49

/-- `process_withdraw`: verifies that the stake storage is owned by
this program, deserializes the record, verifies the requester is the
record's owner, the lock has expired (`locked_until > 0` rejected) and
the requested amount does not exceed the record's amount, then moves
`amount` lamports from the stake storage account to the staker and
decrements the record's `amount`, returning the updated
`(staker_account, stake_account)` pair. All mutations happen after the
last check, so a failure returns an error with no state change. -/
def process_withdraw (program_id : Pubkey)
    (staker_account stake_account : AccountInfo) (amount : Nat) :
    Except ProgramError (AccountInfo × AccountInfo) :=
  if stake_account.owner != program_id then
    .error .IncorrectProgramId
  else
    match stake_account.data with
    | none => .error .BorshIoError
    | some stake_data =>
      if stake_data.owner != staker_account.key then
        .error .InvalidAccountData
      else if stake_data.locked_until > 0 then
        .error .InvalidArgument
      else if amount > stake_data.amount then
        .error .InsufficientFunds
      else
        .ok ({ staker_account with
                 lamports := wadd64 staker_account.lamports amount },
             { stake_account with
                 lamports := wsub64 stake_account.lamports amount,
                 data := some { stake_data with
                                  amount := wsub64 stake_data.amount amount } })

/-- `process_create_stake`: rejects `amount < 10_000_000_000`,
otherwise builds the record
`{owner := staker.key, amount, locked_until := lock_period,
is_active := true}`, computes the rent surcharge for its storage
footprint, and creates the stake storage account funded with
`amount + rent` debited from the staker.

The host primitive `system_instruction::create_account` (external to
this repository) is modelled from the spec: it atomically debits the
transfer from the staker's spendable balance while creating the new
account owned by this program, failing (with no state change) when the
staker's balance is insufficient. `rent_minimum_balance` abstracts the
host's `Rent::get()?.minimum_balance` rule as a function of the
storage footprint. -/
def process_create_stake (program_id : Pubkey)
    (staker_account stake_account : AccountInfo)
    (rent_minimum_balance : Nat → Nat)
    (amount : Nat) (lock_period : Int) :
    Except ProgramError (AccountInfo × AccountInfo) :=
  if amount < 10000000000 then
    .error .InvalidArgument
  else
    let stake_account_data : StakeAccount :=
      { owner := staker_account.key, amount := amount,
        locked_until := lock_period, is_active := true }
    let rent_lamports := rent_minimum_balance stakeAccountSpace
    let transfer := wadd64 amount rent_lamports
    if staker_account.lamports < transfer then
      .error .SystemProgramFailure
    else
      .ok ({ staker_account with
               lamports := staker_account.lamports - transfer },
           { stake_account with
               owner := program_id,
               lamports := transfer,
               data := some stake_account_data })

/-! Concrete sample values used by witnesses and counterexamples. -/

/-- A requester/staker account with key 2 and 100 lamports. -/
def acctA : AccountInfo := ⟨2, 0, 100, none⟩

/-- An unlocked stake record of 100 base units owned by key 2. -/
def stakeRecA : StakeAccount := ⟨2, 100, 0, true⟩

/-- Stake storage owned by program 7 holding `stakeRecA`, funded with
500 lamports (at least the record's amount). -/
def stakeFullA : AccountInfo := ⟨9, 7, 500, some stakeRecA⟩

/-- Stake storage owned by program 7 holding `stakeRecA`, but funded
with only 40 lamports — fewer than the record's 100 base units. -/
def stakeThinA : AccountInfo := ⟨9, 7, 40, some stakeRecA⟩

/-- Stake storage holding `stakeRecA` whose storage owner is program 0,
not the stake program. -/
def stakeForeignA : AccountInfo := ⟨9, 0, 40, some stakeRecA⟩

/-- A staker with 20,000,000,000 lamports available. -/
def stakerRichA : AccountInfo := ⟨2, 0, 20000000000, none⟩

/-- A fresh, empty account for stake storage to be created in. -/
def stakeEmptyA : AccountInfo := ⟨9, 0, 0, none⟩

/-- A sample host minimum-balance rule: a flat rent figure per account. -/
def rentFlatA : Nat → Nat := fun _ => 890880

end DADBS

deriving instance DecidableEq for Except

set_option maxRecDepth 10000

namespace DADBS

/-! ## Helper lemmas -/

theorem djb2Step_mod64 (h : Nat) (c : Char) :
    djb2Step h c % U64 = (h % U64 * 33 + c.toNat) % U64 := by
  unfold djb2Step U64 U128
  have hdvd : (2:Nat) ^ 64 ∣ 2 ^ 128 := pow_dvd_pow 2 (by norm_num)
  have e1 : ((((h <<< 5) % 2 ^ 128 + h) % 2 ^ 128 + c.toNat) % 2 ^ 128) % 2 ^ 64
      = (((h <<< 5) % 2 ^ 128 + h) % 2 ^ 128 + c.toNat) % 2 ^ 64 :=
    Nat.mod_mod_of_dvd _ hdvd
  have e2 : (((h <<< 5) % 2 ^ 128 + h) % 2 ^ 128 + c.toNat) % 2 ^ 64
      = ((h <<< 5) % 2 ^ 128 + h + c.toNat) % 2 ^ 64 :=
    ((Nat.mod_modEq ((h <<< 5) % 2 ^ 128 + h) (2 ^ 128)).of_dvd hdvd).add_right
      c.toNat
  have e3 : ((h <<< 5) % 2 ^ 128 + h + c.toNat) % 2 ^ 64
      = (h <<< 5 + h + c.toNat) % 2 ^ 64 :=
    (((Nat.mod_modEq (h <<< 5) (2 ^ 128)).of_dvd hdvd).add_right h).add_right
      c.toNat
  have e4 : h <<< 5 = h * 32 := by rw [Nat.shiftLeft_eq]
  have e5 : h * 32 + h + c.toNat = h * 33 + c.toNat := by omega
  have e6 : (h * 33 + c.toNat) % 2 ^ 64 = (h % 2 ^ 64 * 33 + c.toNat) % 2 ^ 64 :=
    (((Nat.mod_modEq h (2 ^ 64)).mul_right 33).add_right c.toNat).symm
  rw [e1, e2, e3, e4, e5, e6]

theorem djb2_fold_mod64 (input : List Char) (h : Nat) :
    (input.foldl djb2Step h) % U64 =
      input.foldl (fun a c => (a * 33 + c.toNat) % U64) (h % U64) := by
  induction input generalizing h with
  | nil => rfl
  | cons c rest ih =>
    simp only [List.foldl_cons]
    rw [ih (djb2Step h c), djb2Step_mod64 h c]

theorem djb2_mod64 (input : List Char) : djb2 input % U64 = djb2Spec input := by
  unfold djb2 djb2Spec
  rw [djb2_fold_mod64]
  congr 1

theorem roundHash_eq_roundSpec (input : List Char) :
    roundHash input = roundSpec input := by
  unfold roundHash roundSpec
  rw [djb2_mod64]

theorem hexDigit_lower : ∀ n < 16, isLowerHexdigit (hexDigit n) = true := by
  decide

theorem lowerHexdigit_ascii (c : Char) (h : isLowerHexdigit c = true) :
    isAsciiHexdigit c = true := by
  unfold isLowerHexdigit at h
  unfold isAsciiHexdigit
  simp only [Bool.or_eq_true] at h ⊢
  tauto

theorem toHexPad16_length (v : Nat) : (toHexPad16 v).length = 16 := by
  simp [toHexPad16]

theorem toHexPad16_lower (v : Nat) :
    (toHexPad16 v).all isLowerHexdigit = true := by
  rw [List.all_eq_true]
  intro c hc
  rw [toHexPad16, List.mem_map] at hc
  obtain ⟨i, _, rfl⟩ := hc
  exact hexDigit_lower _ (Nat.mod_lt _ (by norm_num))

theorem runRounds_mem (fuel : Nat) :
    ∀ (prev : List Char) (i : Nat) (hx : List Char),
      hx ∈ runRounds prev i fuel →
        hx.length = 16 ∧ hx.all isLowerHexdigit = true := by
  induction fuel with
  | zero =>
    intro prev i hx hmem
    simp [runRounds] at hmem
  | succ n ih =>
    intro prev i hx hmem
    simp only [runRounds] at hmem
    rcases List.mem_cons.mp hmem with hhead | htail
    · subst hhead
      unfold roundHash
      exact ⟨toHexPad16_length _, toHexPad16_lower _⟩
    · exact ih _ _ hx htail

theorem runRounds_length (fuel : Nat) :
    ∀ (prev : List Char) (i : Nat), (runRounds prev i fuel).length = fuel := by
  induction fuel with
  | zero => intro prev i; rfl
  | succ n ih =>
    intro prev i
    simp only [runRounds, List.length_cons, ih]

theorem all_flatten (p : Char → Bool) (L : List (List Char))
    (h : ∀ x ∈ L, x.all p = true) : L.flatten.all p = true := by
  induction L with
  | nil => rfl
  | cons a t ih =>
    simp only [List.flatten_cons, List.all_append]
    rw [h a (by simp), ih (fun x hx => h x (by simp [hx]))]
    rfl

theorem length_flatten16 (L : List (List Char))
    (h : ∀ x ∈ L, x.length = 16) : L.flatten.length = 16 * L.length := by
  induction L with
  | nil => rfl
  | cons a t ih =>
    simp only [List.flatten_cons, List.length_append, List.length_cons]
    rw [h a (by simp), ih (fun x hx => h x (by simp [hx]))]
    ring

theorem isPrefixOf_append (l t : List Char) : l.isPrefixOf (l ++ t) = true := by
  rw [List.isPrefixOf_iff_prefix]
  exact List.prefix_append l t

theorem wadd64_eq_add (a b : Nat) (h : a + b < U64) : wadd64 a b = a + b :=
  Nat.mod_eq_of_lt h

theorem wsub64_eq_sub (a b : Nat) (hb : b ≤ a) (ha : a < U64) :
    wsub64 a b = a - b := by
  unfold U64 at ha
  unfold wsub64 U64
  rw [Nat.mod_eq_of_lt ha, Nat.mod_eq_of_lt (lt_of_le_of_lt hb ha)]
  have h2 : a + (2 ^ 64 - b) = 2 ^ 64 + (a - b) := by omega
  rw [h2, Nat.add_mod_left, Nat.mod_eq_of_lt (by omega)]

theorem confirmations_le (m : ConsensusManager) (tx : Transaction) :
    get_validator_confirmations m tx ≤ m.validators.length := by
  unfold get_validator_confirmations
  have key : ∀ (l : List Validator) (acc : Nat),
      l.foldl (fun c v => if v.confirm tx then c + 1 else c) acc ≤
        acc + l.length := by
    intro l
    induction l with
    | nil => intro acc; simp
    | cons v t ih =>
      intro acc
      simp only [List.foldl_cons, List.length_cons]
      have h1 := ih (if v.confirm tx then acc + 1 else acc)
      have h2 : (if v.confirm tx then acc + 1 else acc) ≤ acc + 1 := by
        split <;> omega
      omega
  simpa using key m.validators 0

theorem process_withdraw_some (program_id : Pubkey)
    (staker_account stake_account : AccountInfo) (d : StakeAccount)
    (amount : Nat) (hd : stake_account.data = some d) :
    process_withdraw program_id staker_account stake_account amount =
      if stake_account.owner != program_id then
        .error .IncorrectProgramId
      else if d.owner != staker_account.key then
        .error .InvalidAccountData
      else if d.locked_until > 0 then
        .error .InvalidArgument
      else if amount > d.amount then
        .error .InsufficientFunds
      else
        .ok ({ staker_account with
                 lamports := wadd64 staker_account.lamports amount },
             { stake_account with
                 lamports := wsub64 stake_account.lamports amount,
                 data := some { d with amount := wsub64 d.amount amount } }) := by
  unfold process_withdraw
  rw [hd]

theorem runRounds_four (prev : List Char) :
    runRounds prev 0 4 =
      [roundHash (prev ++ ['0']),
       roundHash (roundHash (prev ++ ['0']) ++ ['1']),
       roundHash (roundHash (roundHash (prev ++ ['0']) ++ ['1']) ++ ['2']),
       roundHash (roundHash (roundHash (roundHash (prev ++ ['0']) ++ ['1'])
         ++ ['2']) ++ ['3'])] := rfl

/-! ## Claim theorems -/

/-- C1 counterexample: at the source's own 44-character test address,
`from_solana` succeeds but its value is not the one computed by the
claimed algorithm in which round 0 hashes the external address string
itself — the code appends the decimal digit `0` to the address before
hashing round 0. -/
theorem C1_counterexample :
    from_solana testAddr ≠ .ok (claimDerive testAddr) ∧
      from_solana testAddr = .ok (codeDerive testAddr) :=
  ⟨by decide, by decide⟩

/-- C1 (amended): for every valid 44-character ASCII-alphanumeric
input, `from_solana` succeeds and returns the namespace tag followed by
the concatenation of four DJB2 round outputs, where round `i`
(`i = 0, 1, 2, 3`) hashes the previous round's 16-hex-digit output (the
input address for round 0) concatenated with the decimal digits of `i`
— so round 0 hashes `address ++ "0"` — each round being the
accumulator recurrence `acc := acc * 33 + code_point(c)` starting at
5381, reduced mod `2 ^ 64` and formatted as 16 lowercase zero-padded
hex digits. -/
theorem C1_from_solana_rounds (addr : List Char)
    (hlen : addr.length = 44) (halnum : addr.all isAsciiAlnum = true) :
    from_solana addr = .ok (codeDerive addr) := by
  have hcond : (addr.length != SOLANA_ADDRESS_LENGTH
      || ! addr.all isAsciiAlnum) = false := by
    simp [hlen, halnum, SOLANA_ADDRESS_LENGTH]
  unfold from_solana
  simp only [hcond, Bool.false_eq_true, if_false]
  rw [runRounds_four]
  simp only [List.flatten, List.append_nil, roundHash_eq_roundSpec]
  rfl

/-- C1 witness: the amended round structure evaluated at the source's
test address. -/
theorem C1_witness : from_solana testAddr = .ok (codeDerive testAddr) :=
  C1_from_solana_rounds testAddr (by decide) (by decide)

/-- C2: `validate_transaction` returns `true` iff the signature
verifies, the transaction's age is strictly below `consensus_timeout`,
and the confirmation count `k` exceeds `floor(2n/3)` for validator-set
size `n` (the definition checks these in exactly the source's order,
returning `false` at the first failure); moreover with `n = 0` the
verdict is always `false`, with `n = 3` quorum demands all 3
confirmations, with `n = 4` it demands 3, and with `n = 5` it
demands 4. -/
theorem C2_validate_transaction_spec (m : ConsensusManager) (tx : Transaction) :
    (validate_transaction m tx = true ↔
      (tx.sigValid = true ∧ tx.age < m.consensus_timeout ∧
        m.validators.length * 2 / 3 < get_validator_confirmations m tx))
    ∧ (m.validators.length = 0 → validate_transaction m tx = false)
    ∧ (m.validators.length = 3 →
        (validate_transaction m tx = true ↔
          (tx.sigValid = true ∧ tx.age < m.consensus_timeout ∧
            get_validator_confirmations m tx = 3)))
    ∧ (m.validators.length = 4 →
        (validate_transaction m tx = true ↔
          (tx.sigValid = true ∧ tx.age < m.consensus_timeout ∧
            3 ≤ get_validator_confirmations m tx)))
    ∧ (m.validators.length = 5 →
        (validate_transaction m tx = true ↔
          (tx.sigValid = true ∧ tx.age < m.consensus_timeout ∧
            4 ≤ get_validator_confirmations m tx))) := by
  have hle := confirmations_le m tx
  have hiff : validate_transaction m tx = true ↔
      (tx.sigValid = true ∧ tx.age < m.consensus_timeout ∧
        m.validators.length * 2 / 3 < get_validator_confirmations m tx) := by
    unfold validate_transaction verify_signature verify_timestamp
    cases htx : tx.sigValid
    · simp [htx]
    · by_cases hage : tx.age < m.consensus_timeout <;> simp [hage]
  refine ⟨hiff, ?_, ?_, ?_, ?_⟩
  · intro h0
    cases hval : validate_transaction m tx
    · rfl
    · obtain ⟨_, _, hq⟩ := hiff.mp hval
      rw [h0] at hle
      omega
  · intro h3
    rw [hiff, h3]
    rw [h3] at hle
    exact and_congr_right fun _ => and_congr_right fun _ => by omega
  · intro h4
    rw [hiff, h4]
    rw [h4] at hle
    exact and_congr_right fun _ => and_congr_right fun _ => by omega
  · intro h5
    rw [hiff, h5]
    rw [h5] at hle
    exact and_congr_right fun _ => and_congr_right fun _ => by omega

/-- C2 witness: a manager with an empty validator set rejects even a
fresh, correctly signed transaction. -/
theorem C2_witness :
    validate_transaction ⟨[], 5⟩ ⟨true, 0⟩ = false :=
  (C2_validate_transaction_spec ⟨[], 5⟩ ⟨true, 0⟩).2.1 rfl

/-- C3: `process_withdraw` fails with `IncorrectProgramId` (the spec's
`OwnershipError`) when the stake storage is not owned by the program;
otherwise with `InvalidAccountData` (`PermissionDenied`) when the
requester is not the record's owner; otherwise with `InvalidArgument`
(`StillLocked`) when `locked_until > 0` — with no condition on the
requested amount, so even the rightful owner with sufficient balance is
rejected; otherwise with `InsufficientFunds` when the amount exceeds
the record's amount. The checks apply in exactly this order, and each
failure returns the bare error: the embedding is pure and produces no
updated accounts on any error, mirroring the source, where every write
occurs after the last check. -/
theorem C3_withdraw_error_order (program_id : Pubkey)
    (staker_account stake_account : AccountInfo) (d : StakeAccount)
    (amount : Nat) (hd : stake_account.data = some d) :
    (stake_account.owner ≠ program_id →
        process_withdraw program_id staker_account stake_account amount =
          .error .IncorrectProgramId)
    ∧ (stake_account.owner = program_id → d.owner ≠ staker_account.key →
        process_withdraw program_id staker_account stake_account amount =
          .error .InvalidAccountData)
    ∧ (stake_account.owner = program_id → d.owner = staker_account.key →
        0 < d.locked_until →
        process_withdraw program_id staker_account stake_account amount =
          .error .InvalidArgument)
    ∧ (stake_account.owner = program_id → d.owner = staker_account.key →
        d.locked_until ≤ 0 → d.amount < amount →
        process_withdraw program_id staker_account stake_account amount =
          .error .InsufficientFunds) := by
  rw [process_withdraw_some program_id staker_account stake_account d amount hd]
  refine ⟨?_, ?_, ?_, ?_⟩
  · intro h1
    simp [bne_iff_ne, h1]
  · intro h1 h2
    simp [bne_iff_ne, h1, h2]
  · intro h1 h2 h3
    simp [bne_iff_ne, h1, h2, h3]
  · intro h1 h2 h3 h4
    simp [bne_iff_ne, h1, h2, not_lt.mpr h3, h4]

/-- C3 witness: withdrawing from storage owned by program 0 while the
ledger program is 7 yields the ownership error. -/
theorem C3_withdraw_error_order_witness :
    process_withdraw 7 acctA stakeForeignA 5 = .error .IncorrectProgramId :=
  (C3_withdraw_error_order 7 acctA stakeForeignA stakeRecA 5 rfl).1 (by decide)

/-- C4: `process_create_stake` fails with `InvalidArgument` (the
spec's `ArgumentError`) for every amount strictly below 10,000,000,000
base units, whatever the lock period; and when the amount meets the
minimum and the staker can fund the transfer (all balances being `u64`
values), it debits `amount` plus the rent surcharge for the record's
storage footprint from the staker and persists a record with
`owner = staker`, the requested `amount`, `locked_until = lock_period`
and `is_active = true` in storage owned by the program and funded with
the transfer. -/
theorem C4_create_stake_spec (program_id : Pubkey)
    (staker_account stake_account : AccountInfo)
    (rent_minimum_balance : Nat → Nat) (amount : Nat) (lock_period : Int) :
    (amount < 10000000000 →
        process_create_stake program_id staker_account stake_account
          rent_minimum_balance amount lock_period = .error .InvalidArgument)
    ∧ (10000000000 ≤ amount →
        amount + rent_minimum_balance stakeAccountSpace ≤
          staker_account.lamports →
        staker_account.lamports < U64 →
        process_create_stake program_id staker_account stake_account
          rent_minimum_balance amount lock_period =
          .ok ({ staker_account with
                   lamports := staker_account.lamports -
                     (amount + rent_minimum_balance stakeAccountSpace) },
               { stake_account with
                   owner := program_id,
                   lamports := amount + rent_minimum_balance stakeAccountSpace,
                   data := some { owner := staker_account.key,
                                  amount := amount,
                                  locked_until := lock_period,
                                  is_active := true } })) := by
  constructor
  · intro h
    unfold process_create_stake
    rw [if_pos h]
  · intro hmin hfund hcap
    have hw : wadd64 amount (rent_minimum_balance stakeAccountSpace) =
        amount + rent_minimum_balance stakeAccountSpace :=
      wadd64_eq_add _ _ (lt_of_le_of_lt hfund hcap)
    unfold process_create_stake
    rw [if_neg (by omega)]
    simp only [hw]
    rw [if_neg (by omega)]

/-- C4 witness: staking exactly the 10,000,000,000-unit minimum with
lock period 77 succeeds, debits the amount plus rent, and persists the
expected record. -/
theorem C4_create_stake_witness :
    process_create_stake 7 stakerRichA stakeEmptyA rentFlatA
      10000000000 77 =
      .ok ({ stakerRichA with
               lamports := stakerRichA.lamports -
                 (10000000000 + rentFlatA stakeAccountSpace) },
           { stakeEmptyA with
               owner := 7,
               lamports := 10000000000 + rentFlatA stakeAccountSpace,
               data := some { owner := stakerRichA.key,
                              amount := 10000000000,
                              locked_until := 77,
                              is_active := true } }) :=
  (C4_create_stake_spec 7 stakerRichA stakeEmptyA rentFlatA
    10000000000 77).2 (by decide) (by decide) (by decide)

/-- C5 counterexample: the claim says any remainder character that is
not a lowercase hex digit is rejected, but `from_string` accepts the
string whose 64 characters after the tag are all uppercase `A`
(Rust `char::is_ascii_hexdigit` accepts both cases), none of which is a
lowercase hex digit. -/
theorem C5_counterexample :
    from_string upperAddr = .ok upperAddr ∧
      (upperAddr.drop dadbsTag.length).all isLowerHexdigit = false :=
  ⟨by decide, by decide⟩

/-- C5 (amended): `from_string` succeeds — returning its input
verbatim — exactly on strings consisting of the namespace tag followed
by exactly 64 ASCII hex digits of either case, and fails with the
`InvalidDADBSAddress` format error on every other input (wrong prefix,
remainder length other than 64, or any remainder character that is not
an ASCII hex digit). -/
theorem C5_from_string_spec (s : List Char) :
    (from_string s = .ok s ↔
      ∃ rest, s = dadbsTag ++ rest ∧ rest.length = 64 ∧
        rest.all isAsciiHexdigit = true)
    ∧ ((¬ ∃ rest, s = dadbsTag ++ rest ∧ rest.length = 64 ∧
        rest.all isAsciiHexdigit = true) →
      from_string s = .error .InvalidDADBSAddress) := by
  constructor
  · constructor
    · intro hok
      unfold from_string at hok
      split at hok
      · exact Except.noConfusion hok
      next hpre =>
        rw [Bool.not_eq_true', Bool.not_eq_false] at hpre
        obtain ⟨t, ht⟩ := List.isPrefixOf_iff_prefix.mp hpre
        refine ⟨t, ht.symm, ?_⟩
        rw [← ht, List.drop_left] at hok
        dsimp only at hok
        split at hok
        · exact Except.noConfusion hok
        next hcond =>
          rw [Bool.or_eq_true, not_or, Bool.not_eq_true, Bool.not_eq_true,
            bne_eq_false_iff_eq] at hcond
          exact ⟨hcond.1, by simpa using hcond.2⟩
    · rintro ⟨rest, rfl, hlen, hhex⟩
      unfold from_string
      rw [if_neg (by rw [isPrefixOf_append]; decide)]
      rw [List.drop_left]
      rw [if_neg (by simp [hlen, hhex])]
  · intro hno
    by_cases hpre : dadbsTag.isPrefixOf s = true
    · obtain ⟨t, ht⟩ := List.isPrefixOf_iff_prefix.mp hpre
      have hfail : ¬ (t.length = 64 ∧ t.all isAsciiHexdigit = true) :=
        fun hc => hno ⟨t, ht.symm, hc.1, hc.2⟩
      unfold from_string
      rw [if_neg (by rw [hpre]; decide)]
      rw [← ht, List.drop_left]
      rw [if_pos (by
        rw [Bool.or_eq_true]
        by_cases h64 : t.length = 64
        · refine Or.inr ?_
          have : ¬ t.all isAsciiHexdigit = true := fun hh => hfail ⟨h64, hh⟩
          simp [this]
        · exact Or.inl (by simp [h64]))]
    · unfold from_string
      rw [Bool.not_eq_true] at hpre
      rw [if_pos (by rw [hpre]; decide)]

/-- C5 witness: the tag followed by 64 lowercase `0` digits parses to
itself. -/
theorem C5_from_string_witness : from_string lowAddr = .ok lowAddr :=
  (C5_from_string_spec lowAddr).1.mpr
    ⟨List.replicate 64 '0', rfl, by decide, by decide⟩

/-- C6 counterexample: the `InsufficientFunds` check alone does not
rule out underflow of the stake account's balance subtraction. Here the
record's amount is 100 but the stake storage holds only 40 lamports;
withdrawing 60 passes every check and succeeds, yet 60 exceeds the
40-lamport balance, and the wrapping `u64` subtraction leaves the
storage with `2 ^ 64 - 20` lamports. -/
theorem C6_counterexample :
    process_withdraw 7 acctA stakeThinA 60 =
      .ok (⟨2, 0, 160, none⟩,
           ⟨9, 7, 18446744073709551596, some ⟨2, 40, 0, true⟩⟩) ∧
      stakeThinA.lamports < 60 :=
  ⟨by decide, by decide⟩

/-- C6 (amended): under the ledger invariant that the stake storage's
balance covers the record's amount — which `CreateStake` establishes by
funding the storage with `amount + rent` — a successful withdrawal
implies the requested amount is at most both the record's amount (by
the `InsufficientFunds` check) and the storage balance, so neither
`u64` subtraction underflows and both compute the exact difference;
and withdrawing exactly the record's amount from an unlocked record by
its owner succeeds, zeroes the record's amount, and credits exactly
that amount to the requester's balance. -/
theorem C6_withdraw_no_underflow (program_id : Pubkey)
    (staker_account stake_account : AccountInfo) (d : StakeAccount)
    (amount : Nat) (hd : stake_account.data = some d)
    (hinv : d.amount ≤ stake_account.lamports)
    (hcap : stake_account.lamports < U64) :
    (∀ s a, process_withdraw program_id staker_account stake_account amount =
        .ok (s, a) →
      amount ≤ d.amount ∧ amount ≤ stake_account.lamports ∧
      a.lamports = stake_account.lamports - amount ∧
      a.data = some { d with amount := d.amount - amount })
    ∧ (stake_account.owner = program_id → d.owner = staker_account.key →
        d.locked_until ≤ 0 →
        staker_account.lamports + d.amount < U64 →
        process_withdraw program_id staker_account stake_account d.amount =
          .ok ({ staker_account with
                   lamports := staker_account.lamports + d.amount },
               { stake_account with
                   lamports := stake_account.lamports - d.amount,
                   data := some { d with amount := 0 } })) := by
  have hdlt : d.amount < U64 := lt_of_le_of_lt hinv hcap
  rw [process_withdraw_some program_id staker_account stake_account d amount hd,
    process_withdraw_some program_id staker_account stake_account d d.amount hd]
  constructor
  · intro s a hok
    split at hok
    · exact Except.noConfusion hok
    split at hok
    · exact Except.noConfusion hok
    split at hok
    · exact Except.noConfusion hok
    split at hok
    · exact Except.noConfusion hok
    next hle =>
      rw [not_lt] at hle
      injection hok with hpair
      have ha : a = { stake_account with
          lamports := wsub64 stake_account.lamports amount,
          data := some { d with amount := wsub64 d.amount amount } } :=
        (congrArg Prod.snd hpair).symm
      refine ⟨hle, le_trans hle hinv, ?_, ?_⟩
      · rw [ha]
        exact wsub64_eq_sub _ _ (le_trans hle hinv) hcap
      · rw [ha]
        simp only [wsub64_eq_sub _ _ hle hdlt]
  · intro howner hkey hlock hover
    rw [if_neg (by simp [howner]), if_neg (by simp [hkey]),
      if_neg (not_lt.mpr hlock), if_neg (lt_irrefl d.amount)]
    rw [wadd64_eq_add _ _ hover, wsub64_eq_sub _ _ hinv hcap,
      wsub64_eq_sub _ _ (le_refl d.amount) hdlt, Nat.sub_self]

/-- C6 witness: withdrawing the full 100-unit record amount from a
well-funded, unlocked stake account owned by the requester succeeds,
zeroes the record, and credits 100 lamports. -/
theorem C6_withdraw_no_underflow_witness :
    process_withdraw 7 acctA stakeFullA stakeRecA.amount =
      .ok ({ acctA with lamports := acctA.lamports + stakeRecA.amount },
           { stakeFullA with
               lamports := stakeFullA.lamports - stakeRecA.amount,
               data := some { stakeRecA with amount := 0 } }) :=
  (C6_withdraw_no_underflow 7 acctA stakeFullA stakeRecA stakeRecA.amount
    rfl (by decide) (by decide)).2 rfl rfl (by decide) (by decide)

/-- C7: for every valid 44-character ASCII-alphanumeric input,
`from_solana` succeeds; its output is the namespace tag followed by
exactly 64 lowercase hex characters (total length `len(tag) + 64`),
and `from_string` accepts that output and returns the same address. -/
theorem C7_derive_parse_roundtrip (addr : List Char)
    (hlen : addr.length = 44) (halnum : addr.all isAsciiAlnum = true) :
    from_solana addr = .ok (dadbsTag ++ (runRounds addr 0 4).flatten)
    ∧ ((runRounds addr 0 4).flatten).length = 64
    ∧ ((runRounds addr 0 4).flatten).all isLowerHexdigit = true
    ∧ (dadbsTag ++ (runRounds addr 0 4).flatten).length = dadbsTag.length + 64
    ∧ from_string (dadbsTag ++ (runRounds addr 0 4).flatten) =
        .ok (dadbsTag ++ (runRounds addr 0 4).flatten) := by
  have hflatlen : ((runRounds addr 0 4).flatten).length = 64 := by
    rw [length_flatten16 _ (fun x hx => (runRounds_mem 4 addr 0 x hx).1),
      runRounds_length]
  have hlower : ((runRounds addr 0 4).flatten).all isLowerHexdigit = true :=
    all_flatten _ _ (fun x hx => (runRounds_mem 4 addr 0 x hx).2)
  have hhex : ((runRounds addr 0 4).flatten).all isAsciiHexdigit = true := by
    rw [List.all_eq_true] at hlower ⊢
    exact fun c hc => lowerHexdigit_ascii c (hlower c hc)
  refine ⟨?_, hflatlen, hlower, ?_, ?_⟩
  · have hcond : (addr.length != SOLANA_ADDRESS_LENGTH
        || ! addr.all isAsciiAlnum) = false := by
      simp [hlen, halnum, SOLANA_ADDRESS_LENGTH]
    unfold from_solana
    simp only [hcond, Bool.false_eq_true, if_false]
  · rw [List.length_append, hflatlen]
  · unfold from_string
    rw [if_neg (by rw [isPrefixOf_append]; decide)]
    rw [List.drop_left]
    rw [if_neg (by simp [hflatlen, hhex])]

/-- C7 witness: the derived address of the source's test input parses
back to itself. -/
theorem C7_derive_parse_roundtrip_witness :
    from_string (dadbsTag ++ (runRounds testAddr 0 4).flatten) =
      .ok (dadbsTag ++ (runRounds testAddr 0 4).flatten) :=
  (C7_derive_parse_roundtrip testAddr (by decide) (by decide)).2.2.2.2

/-- C9: a successful withdrawal changes only the `amount` field of the
persisted stake record — the `owner`, `locked_until` and `is_active`
fields of the record stored in the returned stake account equal their
values before the call. -/
theorem C9_withdraw_frame (program_id : Pubkey)
    (staker_account stake_account : AccountInfo) (d : StakeAccount)
    (amount : Nat) (s a : AccountInfo)
    (hd : stake_account.data = some d)
    (hok : process_withdraw program_id staker_account stake_account amount =
      .ok (s, a)) :
    (a.data.map fun r => r.owner) = some d.owner ∧
    (a.data.map fun r => r.locked_until) = some d.locked_until ∧
    (a.data.map fun r => r.is_active) = some d.is_active := by
  rw [process_withdraw_some program_id staker_account stake_account d
    amount hd] at hok
  split at hok
  · exact Except.noConfusion hok
  split at hok
  · exact Except.noConfusion hok
  split at hok
  · exact Except.noConfusion hok
  split at hok
  · exact Except.noConfusion hok
  injection hok with hpair
  have ha : a = { stake_account with
      lamports := wsub64 stake_account.lamports amount,
      data := some { d with amount := wsub64 d.amount amount } } :=
    (congrArg Prod.snd hpair).symm
  rw [ha]
  exact ⟨rfl, rfl, rfl⟩

/-- C9 witness: withdrawing 30 of the 100 staked units leaves the
record's owner, lock and activity flag unchanged. -/
theorem C9_withdraw_frame_witness :
    ((⟨9, 7, 470, some ⟨2, 70, 0, true⟩⟩ : AccountInfo).data.map
        fun r => r.owner) = some stakeRecA.owner ∧
    ((⟨9, 7, 470, some ⟨2, 70, 0, true⟩⟩ : AccountInfo).data.map
        fun r => r.locked_until) = some stakeRecA.locked_until ∧
    ((⟨9, 7, 470, some ⟨2, 70, 0, true⟩⟩ : AccountInfo).data.map
        fun r => r.is_active) = some stakeRecA.is_active :=
  C9_withdraw_frame 7 acctA stakeFullA stakeRecA 30
    ⟨2, 0, 130, none⟩ ⟨9, 7, 470, some ⟨2, 70, 0, true⟩⟩ rfl (by decide)

/-- C10: every address either constructor returns starts with the
`dadbs` tag and has exactly 64 ASCII hex digits after it (total length
69); `from_solana` only ever produces lowercase hex digits there, while
`from_string` returns its input verbatim with no case normalization,
so an address whose digits are uppercase (here 64 copies of `A`) is
representable through `from_string`. -/
theorem C10_address_invariant :
    (∀ addr out, from_solana addr = .ok out →
      dadbsTag.isPrefixOf out = true ∧
      (out.drop dadbsTag.length).length = 64 ∧
      (out.drop dadbsTag.length).all isAsciiHexdigit = true ∧
      (out.drop dadbsTag.length).all isLowerHexdigit = true ∧
      out.length = 69)
    ∧ (∀ s out, from_string s = .ok out →
      out = s ∧
      dadbsTag.isPrefixOf out = true ∧
      (out.drop dadbsTag.length).length = 64 ∧
      (out.drop dadbsTag.length).all isAsciiHexdigit = true ∧
      out.length = 69)
    ∧ (from_string upperAddr = .ok upperAddr ∧
      (upperAddr.drop dadbsTag.length).all isLowerHexdigit = false) := by
  refine ⟨?_, ?_, by decide, by decide⟩
  · intro addr out hok
    unfold from_solana at hok
    split at hok
    · exact Except.noConfusion hok
    · injection hok with h
      subst h
      have hflatlen : ((runRounds addr 0 4).flatten).length = 64 := by
        rw [length_flatten16 _ (fun x hx => (runRounds_mem 4 addr 0 x hx).1),
          runRounds_length]
      have hlower : ((runRounds addr 0 4).flatten).all isLowerHexdigit = true :=
        all_flatten _ _ (fun x hx => (runRounds_mem 4 addr 0 x hx).2)
      have hhex : ((runRounds addr 0 4).flatten).all isAsciiHexdigit = true := by
        rw [List.all_eq_true] at hlower ⊢
        exact fun c hc => lowerHexdigit_ascii c (hlower c hc)
      refine ⟨isPrefixOf_append _ _, ?_, ?_, ?_, ?_⟩
      · rw [List.drop_left]
        exact hflatlen
      · rw [List.drop_left]
        exact hhex
      · rw [List.drop_left]
        exact all_flatten _ _ (fun x hx => (runRounds_mem 4 addr 0 x hx).2)
      · rw [List.length_append, hflatlen]
        decide
  · intro s out hok
    unfold from_string at hok
    split at hok
    · exact Except.noConfusion hok
    next hpre =>
      rw [Bool.not_eq_true', Bool.not_eq_false] at hpre
      dsimp only at hok
      split at hok
      · exact Except.noConfusion hok
      next hcond =>
        rw [Bool.or_eq_true, not_or, Bool.not_eq_true, Bool.not_eq_true,
          bne_eq_false_iff_eq] at hcond
        injection hok with h
        subst h
        obtain ⟨t, ht⟩ := List.isPrefixOf_iff_prefix.mp hpre
        refine ⟨rfl, hpre, hcond.1, by simpa using hcond.2, ?_⟩
        have ht64 : t.length = 64 := by
          have h2 := hcond.1
          rw [← ht, List.drop_left] at h2
          exact h2
        rw [← ht, List.length_append, ht64]
        decide

/-- C10 witness: the invariants instantiated at the all-uppercase
address accepted by `from_string`. -/
theorem C10_address_invariant_witness :
    upperAddr = upperAddr ∧
    dadbsTag.isPrefixOf upperAddr = true ∧
    (upperAddr.drop dadbsTag.length).length = 64 ∧
    (upperAddr.drop dadbsTag.length).all isAsciiHexdigit = true ∧
    upperAddr.length = 69 :=
  C10_address_invariant.2.1 upperAddr upperAddr (by decide)

end DADBS
